import Mathlib

/-!
Verification of the whatsnew content-curation pipeline (the `ai` subproject:
`src/ai/src/crawler.py`, `src/ai/src/analyzer.py`, `src/ai/src/mailer.py`).

Python strings are modelled as `List Char` (`Str`), Python dicts with a fixed
field set as structures with `Option` fields for keys that may be absent,
and external effects (the Bedrock text-generation calls, feed fetching, the
md5 hash) as explicit parameters.  All definitions are executable so that
concrete runs can be settled by `decide` / `rfl`.
-/

namespace WhatsNew

/-- Python strings, modelled as lists of unicode code points. -/
abbrev Str := List Char

/-- Python `needle in hay` substring test. -/
def pyIn (needle : Str) (hay : Str) : Bool :=
  needle.isPrefixOf hay ||
    (match hay with
     | [] => false
     | _ :: rest => pyIn needle rest)

/-- Python `str.lower()` (the keywords the code compares against are ASCII,
so the ASCII-only `Char.toLower` is faithful on every character that can
influence a comparison). -/
def pyLower (s : Str) : Str := s.map Char.toLower

/-- Python `int(s)` on a string: optional sign followed by digits.
Returns `none` when `int()` would raise `ValueError`. -/
def pyInt (s : Str) : Option Int :=
  match s with
  | '-' :: rest =>
    if rest ≠ [] ∧ rest.all Char.isDigit then
      some (-(rest.foldl (fun a c => a * 10 + (c.toNat - 48)) 0 : Nat))
    else none
  | _ =>
    if s ≠ [] ∧ s.all Char.isDigit then
      some ((s.foldl (fun a c => a * 10 + (c.toNat - 48)) 0 : Nat))
    else none

/-- Python `lst[i]` with Python's index semantics (negative indices count
from the end); `none` models an `IndexError`. -/
def pyGet {α : Type} (l : List α) (i : Int) : Option α :=
  if 0 ≤ i then l.get? i.toNat
  else if (-i).toNat ≤ l.length then l.get? (l.length - (-i).toNat)
  else none

/-- A news-item dict.  The first six fields are created at ingestion
(`fetch_rss` and the web fetchers); the `Option` fields model dict keys
that later stages may add (`ai_score`, `ai_reason`, `category` by
`_score_news`; `title_zh`, `summary_zh` by `_enhance_and_translate`). -/
structure NewsDict where
  id : Str
  title : Str
  link : Str
  summary : Str
  published : Str
  source : Str
  ai_score : Option Int
  ai_reason : Option Str
  category : Option Str
  title_zh : Option Str
  summary_zh : Option Str
  deriving DecidableEq, Repr

/-- An item as built at ingestion: only the six base keys are present. -/
def mkItem (id title link summary published source : Str) : NewsDict :=
  ⟨id, title, link, summary, published, source, none, none, none, none, none⟩

/-! ## Crawler: `_dedup_newsletters` (src/ai/src/crawler.py:1209-1239) -/

/-- Embeds `newsletter_keywords` from `_dedup_newsletters`. -/
def newsletter_keywords : List Str :=
  ["newsletter".toList, "weekly".toList, "roundup".toList, "digest".toList, "recap".toList]

/-- Embeds `is_newsletter`: any keyword occurs in the lowercased title. -/
def is_newsletter (item : NewsDict) : Bool :=
  newsletter_keywords.any (fun kw => pyIn kw (pyLower item.title))

/-- The loop of `_dedup_newsletters`: `others` accumulates non-newsletter
items in order; `nls` is the insertion-ordered `newsletters_by_source`
dict (only the first item per source is inserted).  The final result is
`other_items + list(newsletters_by_source.values())`. -/
def dedupGo : List NewsDict → List NewsDict → List (Str × NewsDict) → List NewsDict
  | [], others, nls => others ++ nls.map Prod.snd
  | x :: rest, others, nls =>
    if is_newsletter x then
      if nls.any (fun p => p.1 = x.source) then dedupGo rest others nls
      else dedupGo rest others (nls ++ [(x.source, x)])
    else dedupGo rest (others ++ [x]) nls

/-- Embeds `_dedup_newsletters`. -/
def dedup_newsletters (items : List NewsDict) : List NewsDict :=
  dedupGo items [] []

/-- The newsletter items of `items` that the dict keeps: the first
newsletter per source, in order of first appearance.  (Independent
reformulation used to state properties of `_dedup_newsletters`.) -/
def firstNewsletterPerSource : List NewsDict → List Str → List NewsDict
  | [], _ => []
  | x :: rest, seen =>
    if is_newsletter x then
      if seen.any (fun t => decide (t = x.source)) then firstNewsletterPerSource rest seen
      else x :: firstNewsletterPerSource rest (x.source :: seen)
    else firstNewsletterPerSource rest seen

/-- The items of a run that survive `_dedup_newsletters`, read off in
ingestion order: every non-newsletter item, plus the first newsletter per
source, each at its original position. -/
def survivorsGo : List NewsDict → List Str → List NewsDict
  | [], _ => []
  | z :: rest, seen =>
    if is_newsletter z then
      if seen.any (fun t => decide (t = z.source)) then survivorsGo rest seen
      else z :: survivorsGo rest (z.source :: seen)
    else z :: survivorsGo rest seen

/-- The surviving items of `_dedup_newsletters`, in ingestion order. -/
def survivorsInOrder (items : List NewsDict) : List NewsDict :=
  survivorsGo items []

/-- A `true` entry strictly before a `false` entry exists in the list. -/
def mixedTF : List Bool → Bool
  | [] => false
  | true :: rest => rest.any (fun b => !b) || mixedTF rest
  | false :: rest => mixedTF rest

/-- First item of the C6 scenario: three "weekly digest" items from one source. -/
def c6item1 : NewsDict :=
  mkItem "h1".toList "AI Weekly Digest no. 1".toList "l1".toList "s1".toList "d".toList "X".toList

def c6item2 : NewsDict :=
  mkItem "h2".toList "AI Weekly Digest no. 2".toList "l2".toList "s2".toList "d".toList "X".toList

def c6item3 : NewsDict :=
  mkItem "h3".toList "AI Weekly Digest no. 3".toList "l3".toList "s3".toList "d".toList "X".toList

/-- Newsletter item for the C10 witness run. -/
def c10rollup : NewsDict :=
  mkItem "r".toList "Weekly Digest no. 12".toList "lr".toList "sr".toList "d".toList "X".toList

def c10plain : NewsDict :=
  mkItem "n".toList "New model released".toList "ln".toList "sn".toList "d".toList "Y".toList

/-! ## Crawler: `fetch_rss`, `fetch_all`, `_generate_id`, `_filter_corporate_news`
(src/ai/src/crawler.py:14-135, 137-206, 1152-1207, 1241-1288, 1346-1348) -/

/-- Embeds `_generate_id`: md5 hex digest of the text.  The hash itself is an
external primitive; it is passed in as the function `md5hex`, of which the
code uses nothing beyond it being a fixed function. -/
def generate_id (md5hex : Str → Str) (text : Str) : Str := md5hex text

/-- Embeds `AGENT_KEYWORDS` from the `Crawler` class. -/
def AGENT_KEYWORDS : List Str :=
  ["agent".toList, "agentic".toList, "multi-agent".toList, "multiagent".toList,
   "autonomous agent".toList, "ai agent".toList, "llm agent".toList,
   "mcp".toList, "model context protocol".toList,
   "tool use".toList, "tool calling".toList, "function calling".toList,
   "tool-use".toList, "tool-calling".toList, "function-calling".toList,
   "langchain".toList, "llamaindex".toList, "llama-index".toList, "langgraph".toList,
   "crewai".toList, "crew ai".toList, "autogen".toList, "semantic kernel".toList,
   "agent framework".toList, "agent orchestration".toList,
   "dify".toList, "flowise".toList, "langflow".toList,
   "rag".toList, "retrieval augmented".toList, "retrieval-augmented".toList,
   "vector database".toList, "embedding".toList,
   "bedrock agent".toList, "bedrock agents".toList, "amazon bedrock".toList,
   "amazon q".toList, "sagemaker".toList,
   "claude".toList, "gpt-4".toList, "gpt4".toList, "llm".toList,
   "large language model".toList, "anthropic".toList, "openai".toList,
   "prompt engineering".toList, "prompt".toList,
   "chain of thought".toList, "cot".toList, "react pattern".toList,
   "reflection".toList, "self-reflection".toList,
   "code interpreter".toList, "code execution".toList]

/-- Embeds `EXCLUDE_KEYWORDS` from the `Crawler` class. -/
def EXCLUDE_KEYWORDS : List Str :=
  ["programming language".toList, "compiler".toList, "interpreter".toList,
   "syntax".toList, "parser".toList, "lexer".toList,
   "css".toList, "html".toList, "javascript framework".toList,
   "react native".toList, "flutter".toList, "swift".toList,
   "game".toList, "gaming".toList, "esports".toList,
   "hardware".toList, "chip".toList, "semiconductor".toList,
   "appoints".toList, "appointed".toList, "hire".toList, "hiring".toList,
   "office opening".toList, "headquarters".toList,
   "valuation".toList, "funding round".toList,
   "series a".toList, "series b".toList, "series c".toList]

/-- Embeds `_is_agent_related`. -/
def is_agent_related (title summary : Str) : Bool :=
  let text := pyLower (title ++ [' '] ++ summary)
  if EXCLUDE_KEYWORDS.any (fun kw => pyIn (pyLower kw) text) then false
  else AGENT_KEYWORDS.any (fun kw => pyIn (pyLower kw) text)

/-- Embeds `agent_sources` from `_should_include`. -/
def agent_sources : List Str :=
  ["LangChain".toList, "LlamaIndex".toList, "CrewAI".toList, "Semantic Kernel".toList,
   "Anthropic".toList, "Simon Willison".toList, "Latent Space".toList]

/-- Embeds `_should_include` (the crawler's optional keyword filter). -/
def should_include (keywordFilter : Option Str) (title summary sourceName : Str) : Bool :=
  match keywordFilter with
  | none => true
  | some kf =>
    if agent_sources.any (fun s => pyIn (pyLower s) (pyLower sourceName)) then true
    else if kf = "agent".toList then is_agent_related title summary
    else true

/-- A parsed feed entry as `feedparser` hands it to `fetch_rss`.  `Option`
fields model dict keys that may be absent; `published_parsed = some none`
models a present `published_parsed` on which the `datetime(...)` conversion
raises (the code then ignores the date). -/
structure FeedEntry where
  title : Option Str
  link : Option Str
  eid : Option Str
  published_parsed : Option (Option Nat)
  publishedRaw : Str
  deriving Repr

/-- The external collaborators and configuration of one `Crawler` run:
the md5 hash, the HTML cleaning and summary extraction helpers, date
formatting, the delivered-set (`storage.is_sent`), the freshness cutoff
and the keyword filter. -/
structure RssCtx where
  md5hex : Str → Str
  cleanHtml : Str → Str
  extractSummary : FeedEntry → Str
  fmtDate : Nat → Str
  sentIds : List Str
  cutoff : Nat
  keywordFilter : Option Str

/-- The entry loop of `fetch_rss`: date cutoff, delivered-set skip, title
cleanup, keyword filter, item construction, early break at `max_items`
(the check sits after the append, as in the code). -/
def fetchRssGo (ctx : RssCtx) (sourceName : Str) (maxItems : Nat) :
    List FeedEntry → Nat → List NewsDict
  | [], _ => []
  | e :: rest, built =>
    let skipDate :=
      match e.published_parsed with
      | some (some t) => decide (t < ctx.cutoff)
      | _ => false
    if skipDate then fetchRssGo ctx sourceName maxItems rest built
    else
      let item_id := generate_id ctx.md5hex (e.link.getD (e.eid.getD []))
      if ctx.sentIds.any (fun s => decide (s = item_id)) then
        fetchRssGo ctx sourceName maxItems rest built
      else
        let title := ctx.cleanHtml (e.title.getD "无标题".toList)
        let summary := ctx.extractSummary e
        if !(should_include ctx.keywordFilter title summary sourceName) then
          fetchRssGo ctx sourceName maxItems rest built
        else
          let pub_date :=
            match e.published_parsed with
            | some (some t) => ctx.fmtDate t
            | _ => e.publishedRaw
          mkItem item_id title (e.link.getD []) summary pub_date sourceName ::
            (if built + 1 ≥ maxItems then []
             else fetchRssGo ctx sourceName maxItems rest (built + 1))

/-- Embeds `fetch_rss` (the entry iteration is over `feed.entries[:max_items*3]`). -/
def fetch_rss (ctx : RssCtx) (sourceName : Str) (maxItems : Nat)
    (entries : List FeedEntry) : List NewsDict :=
  fetchRssGo ctx sourceName maxItems (entries.take (maxItems * 3)) 0

/-- Embeds `corporate_keywords` from `_filter_corporate_news`. -/
def corporate_keywords : List Str :=
  ["appoints".toList, "appointed".toList, "hire".toList, "hiring".toList, "joins".toList,
   "office opening".toList, "headquarters".toList, "expansion".toList,
   "funding".toList, "valuation".toList, "series a".toList, "series b".toList,
   "series c".toList, "series d".toList, "series e".toList, "series f".toList,
   "compliance".toList, "regulatory".toList, "policy response".toList,
   "managing director".toList, "ceo".toList, "cto".toList, "cfo".toList]

/-- Embeds `low_value_patterns` from `_filter_corporate_news`. -/
def low_value_patterns : List Str :=
  ["quoting ".toList, "via @".toList, "rt @".toList]

/-- Python `str.split()`: split on whitespace runs, dropping empty parts. -/
def pyWords (s : Str) : List Str :=
  let r := s.foldl
    (fun (acc : List Str × Str) c =>
      if c.isWhitespace then
        (if acc.2 = [] then acc.1 else acc.1 ++ [acc.2.reverse], [])
      else (acc.1, c :: acc.2))
    ([], [])
  if r.2 = [] then r.1 else r.1 ++ [r.2.reverse]

/-- Embeds `_filter_corporate_news`: drop corporate, low-value and bare-repo-link
items; keep the rest in order. -/
def filter_corporate_news (items : List NewsDict) : List NewsDict :=
  items.filter (fun item =>
    let title_lower := pyLower item.title
    let summary_lower := pyLower item.summary
    let text := title_lower ++ [' '] ++ summary_lower
    let is_corporate := corporate_keywords.any (fun kw => pyIn kw text)
    let is_low_value := low_value_patterns.any (fun p => pyIn p title_lower)
    let is_bare_link :=
      item.title.contains '/' && decide ((pyWords item.title).length ≤ 2)
        && decide (item.title = item.summary)
    !(is_corporate || is_low_value || is_bare_link))

/-- One configured source: `enabled`, `type`, `name`, `web_func` keys
(with the `.get` defaults applied). -/
structure Source where
  enabled : Bool
  stype : Str
  name : Str
  web_func : Str

/-- The `fetch_web_*` dispatch table of `fetch_all`. -/
def knownWebFuncs : List Str :=
  ["anthropic".toList, "langchain".toList, "llamaindex".toList, "tmtpost".toList,
   "xinzhiyuan".toList, "36kr_ai".toList, "jiqizhixin".toList,
   "github_trending".toList, "producthunt".toList, "hn_blogs".toList]

/-- The accumulation loop of `fetch_all`, before `_dedup_newsletters` and
`_filter_corporate_news` run.  `feeds` supplies the parsed feed of an RSS
source, `webFetch` the result of the matching `fetch_web_*` call (both are
network collaborators). -/
def fetch_all_raw (ctx : RssCtx) (feeds : Source → List FeedEntry)
    (webFetch : Source → List NewsDict) (sources : List Source) (maxItems : Nat) :
    List NewsDict :=
  sources.foldl
    (fun acc source =>
      if !source.enabled then acc
      else if source.stype = "rss".toList then
        acc ++ fetch_rss ctx source.name maxItems (feeds source)
      else if source.stype = "web".toList then
        acc ++ (if knownWebFuncs.any (fun f => decide (f = source.web_func))
                then webFetch source else [])
      else acc)
    []

/-- Embeds `fetch_all`: accumulate per-source items, then newsletter dedup, then
the corporate/low-value filter. -/
def fetch_all (ctx : RssCtx) (feeds : Source → List FeedEntry)
    (webFetch : Source → List NewsDict) (sources : List Source) (maxItems : Nat) :
    List NewsDict :=
  filter_corporate_news (dedup_newsletters (fetch_all_raw ctx feeds webFetch sources maxItems))

/-- Feed for the C5 counterexample: two fresh entries sharing one link. -/
def c5entry1 : FeedEntry := ⟨some "Alpha one".toList, some "L1".toList, none, none, []⟩

def c5entry2 : FeedEntry := ⟨some "Beta two".toList, some "L1".toList, none, none, []⟩

def c5ctx : RssCtx :=
  ⟨fun s => s, fun s => s, fun e => e.title.getD [], fun _ => [], [], 0, none⟩

def c5source : Source := ⟨true, "rss".toList, "SrcA".toList, []⟩

/-! ## Analyzer: `_filter_news` (src/ai/src/analyzer.py:184-281) -/

/-- Embeds `protected_sources` from `_filter_news`. -/
def protected_sources : List Str :=
  ["Hacker News".toList, "GitHub Trending".toList, "GitHub Blog".toList,
   "Dev.to".toList, "Rust Blog".toList, "Python Blog".toList,
   "AWS News Blog".toList, "AWS AI Blog".toList, "AWS Machine Learning Blog".toList,
   "AWS Compute Blog".toList, "AWS Developer Blog".toList,
   "LangChain Blog".toList, "LlamaIndex Blog".toList, "CrewAI Blog".toList,
   "Semantic Kernel Blog".toList, "Anthropic News".toList]

/-- The enumerate loop splitting indices into `protected_items` and
`items_to_check` (both ascending, as appended by the loop). -/
def partitionIdx (isProt : NewsDict → Bool) : List NewsDict → Nat → List Nat × List Nat
  | [], _ => ([], [])
  | x :: rest, i =>
    let r := partitionIdx isProt rest (i + 1)
    if isProt x then (i :: r.1, r.2) else (r.1, i :: r.2)

/-- Membership test of `protected_sources` (Python `in` on a set of strings). -/
def isProtected (item : NewsDict) : Bool :=
  protected_sources.any (fun s => decide (s = item.source))

/-- The relevance response of `_filter_news`, by observable shape:
a transport error from `llm.invoke`, a reply without a brace pair,
one whose brace substring is invalid JSON, or a parsed JSON object whose
`relevant_ids` value is `some ids` (a list of id strings) or `none` when
the key is absent (`.get` then yields `[]`). -/
inductive FilterResp where
  | transportError
  | noBraces
  | badJson
  | parsed (relevant_ids : Option (List Str))

/-- Ascending duplicate-free insertion (the combined effect of `set(...)`
then `sorted(...)` on integer ids). -/
def insAsc (x : Int) : List Int → List Int
  | [] => [x]
  | y :: ys => if x < y then x :: y :: ys else if x = y then y :: ys else y :: insAsc x ys

/-- Embeds `sorted(set(l))` for a list of integers. -/
def sortedDedup (l : List Int) : List Int :=
  l.foldl (fun acc x => insAsc x acc) []

/-- Embeds `[news_items[i] for i in keep]`; `none` models the `IndexError` that
an out-of-range id raises (outside the `try` of `_filter_news`). -/
def buildKeep (items : List NewsDict) : List Int → Option (List NewsDict)
  | [] => some []
  | i :: rest =>
    match pyGet items i with
    | none => none
    | some x => (buildKeep items rest).map (fun tail => x :: tail)

/-- Embeds `_filter_news`: allowlist bypass, the relevance call, fail-open on
transport/parse errors, and the final keep-list rebuild. -/
def filter_news (items : List NewsDict) (resp : FilterResp) : Option (List NewsDict) :=
  let part := partitionIdx isProtected items 0
  let protected_items := part.1
  let items_to_check := part.2
  if items_to_check = [] then some items
  else
    let relevant_ids : List Int :=
      match resp with
      | .transportError => items_to_check.map Int.ofNat
      | .noBraces => items_to_check.map Int.ofNat
      | .badJson => items_to_check.map Int.ofNat
      | .parsed none => []
      | .parsed (some ids) =>
        match ids.mapM pyInt with
        | some ns => ns
        | none => items_to_check.map Int.ofNat
    let keep_ids := sortedDedup (protected_items.map Int.ofNat ++ relevant_ids)
    buildKeep items keep_ids

/-! ## Analyzer: `_score_news` (src/ai/src/analyzer.py:283-433) -/

/-- Embeds `SOURCE_CATEGORY_MAP`: the forced source→category table. -/
def SOURCE_CATEGORY_MAP : List (Str × Str) :=
  [("AWS News Blog".toList, "AWS 聚焦".toList),
   ("AWS AI Blog".toList, "AWS 聚焦".toList),
   ("AWS Machine Learning Blog".toList, "AWS 聚焦".toList),
   ("AWS Compute Blog".toList, "AWS 聚焦".toList),
   ("AWS Developer Blog".toList, "AWS 聚焦".toList),
   ("CrewAI Blog".toList, "Agent 专项".toList),
   ("Semantic Kernel Blog".toList, "Agent 专项".toList),
   ("Anthropic News".toList, "Agent 专项".toList)]

/-- Embeds `TITLE_CATEGORY_KEYWORDS`. -/
def TITLE_CATEGORY_KEYWORDS : List (Str × List Str) :=
  [("Agent 专项".toList,
    ["agent".toList, "agentic".toList, "multi-agent".toList, "mcp".toList,
     "tool use".toList, "function call".toList]),
   ("技术深度".toList,
    ["rag".toList, "retrieval".toList, "embedding".toList, "vector".toList,
     "llm".toList, "fine-tun".toList, "prompt".toList, "ocr".toList,
     "parse".toList, "extract".toList]),
   ("AWS 聚焦".toList,
    ["aws".toList, "bedrock".toList, "sagemaker".toList, "amazon".toList])]

/-- The fixed evaluation order of the keyword groups in `_score_news`. -/
def category_order : List Str :=
  ["Agent 专项".toList, "技术深度".toList, "AWS 聚焦".toList]

/-- The documented default category. -/
def default_category : Str := "行业动态".toList

/-- The `id_to_category` dict: later writes shadow earlier ones, `.get`
reads the latest. -/
abbrev CatDict := List (Int × Str)

def dictInsert (k : Int) (v : Str) (d : CatDict) : CatDict := (k, v) :: d

def dictLookup (d : CatDict) (k : Int) : Option Str :=
  (d.find? (fun p => decide (p.1 = k))).map Prod.snd

/-- The first loop of `_score_news`: `id_to_category[int(id_str)] = category`
over the classification result (id strings already converted to integers). -/
def buildIdToCategory (categorized : List (Str × List Int)) : CatDict :=
  categorized.foldl (fun d p => p.2.foldl (fun d i => dictInsert i p.1 d) d) []

/-- Embeds `source in SOURCE_CATEGORY_MAP` lookup. -/
def forced_category (source : Str) : Option Str :=
  (SOURCE_CATEGORY_MAP.find? (fun p => decide (p.1 = source))).map Prod.snd

/-- The keyword fallback of the override loop: first category (in the fixed
order) with a keyword hit in the lowercased title. -/
def keyword_category (titleLower : Str) : Option Str :=
  category_order.find? (fun c =>
    ((((TITLE_CATEGORY_KEYWORDS.find? (fun p => decide (p.1 = c))).map Prod.snd).getD []).any
      (fun kw => pyIn kw titleLower)))

/-- The override loop of `_score_news`: forced source map first, else the
keyword match, else leave the classification result. -/
def applyOverrides : List NewsDict → Int → CatDict → CatDict
  | [], _, d => d
  | item :: rest, i, d =>
    let d2 :=
      match forced_category item.source with
      | some c => dictInsert i c d
      | none =>
        match keyword_category (pyLower item.title) with
        | some c => dictInsert i c d
        | none => d
    applyOverrides rest (i + 1) d2

/-- The complete `id_to_category` map of one `_score_news` run. -/
def id_to_category (items : List NewsDict) (categorized : List (Str × List Int)) : CatDict :=
  applyOverrides items 0 (buildIdToCategory categorized)

/-- One element of the parsed scoring response array.  `none` in `id` or
`score` models a missing dict key (`item['id']` / `item['score']` raises
`KeyError`); `reason` is read with `.get('reason', '')`. -/
structure ScoreEntry where
  id : Option Str
  score : Option Int
  reason : Option Str

/-- The scoring response: either the bracket-extraction/JSON parse failed,
or it yielded an array of entries. -/
inductive ScoreResp where
  | parseFail
  | parsed (entries : List ScoreEntry)

/-- Embeds `news_copy` with `ai_score`, `ai_reason` and `category` attached. -/
def mkScored (base : NewsDict) (score : Int) (reason : Str) (cat : Str) : NewsDict :=
  { base with ai_score := some score, ai_reason := some reason, category := some cat }

/-- The merge loop of `_score_news`; `none` models an exception inside the
`try` (non-numeric id, missing key, `IndexError`), which discards the
partial merge and sends the stage to its fallback. -/
def mergeScores (items : List NewsDict) (d : CatDict) : List ScoreEntry → Option (List NewsDict)
  | [] => some []
  | e :: rest =>
    match e.id with
    | none => none
    | some idStr =>
      match pyInt idStr with
      | none => none
      | some nid =>
        if nid < (items.length : Int) then
          match e.score with
          | none => none
          | some sc =>
            match pyGet items nid with
            | none => none
            | some base =>
              (mergeScores items d rest).map
                (fun tail =>
                  mkScored base sc (e.reason.getD [])
                    ((dictLookup d nid).getD default_category) :: tail)
        else mergeScores items d rest

/-- The fallback of `_score_news`: every input item with score 5, empty
reason, and its `id_to_category` category. -/
def scoreFallbackGo (d : CatDict) : List NewsDict → Int → List NewsDict
  | [], _ => []
  | item :: rest, i =>
    mkScored item 5 [] ((dictLookup d i).getD default_category) :: scoreFallbackGo d rest (i + 1)

/-- Embeds `_score_news`: build `id_to_category`, then merge the scoring response,
falling back to default scores when parsing or merging raises. -/
def score_news (items : List NewsDict) (categorized : List (Str × List Int))
    (resp : ScoreResp) : List NewsDict :=
  let d := id_to_category items categorized
  match resp with
  | .parseFail => scoreFallbackGo d items 0
  | .parsed entries =>
    match mergeScores items d entries with
    | none => scoreFallbackGo d items 0
    | some out => out

instance : IsAntisymm Int (· < ·) := ⟨fun _ _ h₁ h₂ => absurd h₂ (lt_asymm h₁)⟩

/-- A protected-source item and an unprotected one for the C4 run. -/
def c4protected : NewsDict :=
  mkItem "p".toList "Show HN: something".toList "lp".toList "sp".toList "d".toList
    "Hacker News".toList

def c4checked : NewsDict :=
  mkItem "c".toList "Some AI tool".toList "lc".toList "sc".toList "d".toList
    "Random Blog".toList

/-- An entry id is absent, non-numeric, or a non-negative integer (rules
out the Python negative-indexing corner of the merge loop). -/
def entryIdNonneg (e : ScoreEntry) : Bool :=
  match e.id with
  | none => true
  | some s =>
    match pyInt s with
    | none => true
    | some z => decide (0 ≤ z)

/-- All ids of a scoring response are non-negative (vacuous for a reply
that fails to parse). -/
def respIdsNonneg : ScoreResp → Prop
  | .parseFail => True
  | .parsed entries => ∀ e ∈ entries, entryIdNonneg e = true

/-- An item from a forced-category source for the C1 runs. -/
def c1awsItem : NewsDict :=
  mkItem "a".toList "Something new".toList "la".toList "sa".toList "d".toList
    "AWS News Blog".toList

/-- A response entry merges into the output iff its id parses to an
integer below `len(news_items)` (Python semantics; negatives included). -/
def entryInRange (items : List NewsDict) (e : ScoreEntry) : Bool :=
  match e.id with
  | none => false
  | some s =>
    match pyInt s with
    | none => false
    | some nid => decide (nid < (items.length : Int))

def c2itemA : NewsDict :=
  mkItem "a".toList "Item one".toList "la".toList "sa".toList "d".toList "SrcA".toList

def c2itemB : NewsDict :=
  mkItem "b".toList "Item two".toList "lb".toList "sb".toList "d".toList "SrcB".toList

def c3item : NewsDict :=
  mkItem "c3".toList "Item three".toList "l3".toList "s3".toList "d".toList "SrcC".toList

/-! ## Analyzer: `needs_translation` and `_enhance_and_translate`
(src/ai/src/analyzer.py:655-744) -/

/-- Embeds `sum(1 for c in text if c.isascii() and c.isalpha())`.  Python's
Unicode-aware `str.isalpha` is the parameter `pyIsAlpha`; `isascii` is
the code point being below 128. -/
def english_chars (pyIsAlpha : Char → Bool) (text : Str) : Nat :=
  (text.filter (fun c => decide (c.toNat < 128) && pyIsAlpha c)).length

/-- Embeds `len([c for c in text if c.isalpha()])`. -/
def total_alpha (pyIsAlpha : Char → Bool) (text : Str) : Nat :=
  (text.filter pyIsAlpha).length

/-- Embeds `needs_translation` from `_enhance_and_translate`: non-empty text with
more than half of its alphabetic characters plain ASCII.  The float
division of the source is modelled as exact rational division (the two
disagree only on astronomically long texts). -/
def needs_translation (pyIsAlpha : Char → Bool) (text : Str) : Bool :=
  if text = [] then false
  else
    decide (0 < total_alpha pyIsAlpha text) &&
      decide ((english_chars pyIsAlpha text : ℚ) / (total_alpha pyIsAlpha text : ℚ) > 1 / 2)

/-- One element of a parsed enhancement/translation response,
`{id, title_zh?, summary_zh?}`. -/
structure EnhEntry where
  id : Option Str
  title_zh : Option Str
  summary_zh : Option Str

/-- The response of one enhancement batch: `fail` covers a transport
error, a reply without a bracket pair, and invalid JSON (all leave the
batch's items untouched). -/
inductive EnhResp where
  | fail
  | ok (entries : List EnhEntry)

/-- Python truthiness of an optional string (`None` and `""` are falsy). -/
def truthy : Option Str → Bool
  | none => false
  | some s => decide (s ≠ [])

/-- Python `lst[i] = f(lst[i])` at a possibly negative index; `none`
models the `IndexError`. -/
def pySet (l : List NewsDict) (i : Int) (f : NewsDict → NewsDict) : Option (List NewsDict) :=
  match pyGet l i with
  | none => none
  | some x =>
    let j := if 0 ≤ i then i.toNat else l.length - (-i).toNat
    some (l.set j (f x))

/-- The per-entry update of `_enhance_and_translate` (under the
`idx < len(processed_news)` guard): set `title_zh` when truthy, set
`summary_zh` when truthy, and overwrite a short `summary` with the
translated one. -/
def updateEnhEntry (state : List NewsDict) (idx : Int) (e : EnhEntry) :
    Option (List NewsDict) :=
  let afterTitle :=
    if truthy e.title_zh then pySet state idx (fun it => { it with title_zh := e.title_zh })
    else some state
  match afterTitle with
  | none => none
  | some st1 =>
    if truthy e.summary_zh then
      pySet st1 idx (fun it =>
        let it2 := { it with summary_zh := e.summary_zh }
        if it.summary.length < 50 then { it2 with summary := e.summary_zh.getD [] }
        else it2)
    else some st1

/-- The result-merge loop of one enhancement batch.  An exception
(missing/broken id, `IndexError`) aborts the batch but keeps the updates
already applied; an out-of-range non-negative id is skipped. -/
def processEnhEntries (state : List NewsDict) : List EnhEntry → List NewsDict
  | [] => state
  | e :: rest =>
    match e.id with
    | none => state
    | some s =>
      match pyInt s with
      | none => state
      | some idx =>
        if idx < (state.length : Int) then
          match updateEnhEntry state idx e with
          | none => state
          | some st2 => processEnhEntries st2 rest
        else processEnhEntries state rest

/-- Number of batches: `range(0, len(to_process), batch_size)` with
`batch_size = 10`. -/
def batchCount (n : Nat) : Nat := (n + 9) / 10

/-- Embeds `_enhance_and_translate`: one response per batch of 10; a failing
batch leaves its items with their pre-enhancement values.  (The
`needs_translation` flags are computed into `to_process` but never read
by this merge loop: every item is sent for translation and the
translated-field slots are set only from returned values.) -/
def enhance_and_translate (scored : List NewsDict) (responses : List EnhResp) :
    List NewsDict :=
  if scored = [] then []
  else
    (List.range (batchCount scored.length)).foldl
      (fun state b =>
        match responses.getD b .fail with
        | .fail => state
        | .ok entries => processEnhEntries state entries)
      scored

/-- An all-CJK (below-threshold) title for the C7 counterexample. -/
def c7item : NewsDict :=
  mkItem "i7".toList "机器学习进展".toList "l7".toList
    "这是一条足够长的摘要，用来描述这条新闻的内容与来源背景信息。".toList "d".toList "SrcG".toList

/-! ## Ranking: `_summarize` (src/ai/src/analyzer.py:880-882) and
`format_news_email` (src/ai/src/mailer.py:1074-1075) -/

/-- The sort key of both call sites: `x.get('ai_score', 0)`. -/
def sortKey (x : NewsDict) : Int := x.ai_score.getD 0

/-- Insertion of one element into an already built descending run, placing
it after every element with a key at least as large — the semantics of
CPython's stable `sorted(..., reverse=True)`. -/
def insDesc (key : NewsDict → Int) (x : NewsDict) : List NewsDict → List NewsDict
  | [] => [x]
  | y :: ys => if key x ≤ key y then y :: insDesc key x ys else x :: y :: ys

/-- Embeds `sorted(l, key=key, reverse=True)`: descending, stable. -/
def pySortDesc (key : NewsDict → Int) (l : List NewsDict) : List NewsDict :=
  l.foldl (fun acc x => insDesc key x acc) []

/-- Embeds `_summarize`: `sorted(scored, key=..., reverse=True)[:5]`. -/
def summarize_top_news (scored : List NewsDict) : List NewsDict :=
  (pySortDesc sortKey scored).take 5

/-- Embeds `format_news_email`: the per-category
`sorted(cat_items, key=..., reverse=True)`. -/
def mailer_sort_category (cat_items : List NewsDict) : List NewsDict :=
  pySortDesc sortKey cat_items

/-- The four items of the C8 ranking scenario, scores `[7,7,5,9]`. -/
def c8A : NewsDict :=
  { mkItem "A".toList "Item A".toList "lA".toList "sA".toList "d".toList "S1".toList
    with ai_score := some 7 }

def c8B : NewsDict :=
  { mkItem "B".toList "Item B".toList "lB".toList "sB".toList "d".toList "S2".toList
    with ai_score := some 7 }

def c8C : NewsDict :=
  { mkItem "C".toList "Item C".toList "lC".toList "sC".toList "d".toList "S3".toList
    with ai_score := some 5 }

def c8D : NewsDict :=
  { mkItem "D".toList "Item D".toList "lD".toList "sD".toList "d".toList "S4".toList
    with ai_score := some 9 }

/-! ## Workflow: `_build_workflow` (src/ai/src/analyzer.py:53-86) -/

/-- The `add_edge` calls of `_build_workflow`, in source order (`END` is
the LangGraph terminal). -/
def workflow_edges : List (Str × Str) :=
  [("categorize".toList, "filter".toList),
   ("filter".toList, "score".toList),
   ("score".toList, "enhance_translate".toList),
   ("enhance_translate".toList, "label_and_oneliner".toList),
   ("label_and_oneliner".toList, "find_trends".toList),
   ("find_trends".toList, "cluster_news".toList),
   ("cluster_news".toList, "analyze_papers".toList),
   ("analyze_papers".toList, "summarize".toList),
   ("summarize".toList, "spotlight".toList),
   ("spotlight".toList, "action_items".toList),
   ("action_items".toList, "commentary".toList),
   ("commentary".toList, "END".toList)]

/-- Embeds `set_entry_point("categorize")`. -/
def workflow_entry : Str := "categorize".toList

/-- Follow the (functional) edge relation from a node, bounded by fuel. -/
def chainFrom (edges : List (Str × Str)) : Nat → Str → List Str
  | 0, cur => [cur]
  | fuel + 1, cur =>
    cur ::
      (match edges.find? (fun e => decide (e.1 = cur)) with
       | some e => chainFrom edges fuel e.2
       | none => [])

/-- The linear execution order of the compiled workflow. -/
def stage_sequence : List Str :=
  chainFrom workflow_edges workflow_edges.length workflow_entry


/-! ## Properties -/
lemma firstNPS_congr (items : List NewsDict) :
    ∀ seen₁ seen₂ : List Str,
      (∀ s, seen₁.any (fun t => decide (t = s)) = seen₂.any (fun t => decide (t = s))) →
      firstNewsletterPerSource items seen₁ = firstNewsletterPerSource items seen₂ := by
  induction items with
  | nil => intro seen₁ seen₂ _; rfl
  | cons x rest ih =>
    intro seen₁ seen₂ h
    simp only [firstNewsletterPerSource]
    rw [h x.source]
    cases hnl : is_newsletter x with
    | false => simp only [Bool.false_eq_true, if_false]; exact ih seen₁ seen₂ h
    | true =>
      simp only [if_true]
      cases hseen : seen₂.any (fun t => decide (t = x.source)) with
      | true => simp only [if_true]; exact ih seen₁ seen₂ h
      | false =>
        simp only [Bool.false_eq_true, if_false]
        have hs : ∀ s, (x.source :: seen₁).any (fun t => decide (t = s))
            = (x.source :: seen₂).any (fun t => decide (t = s)) := by
          intro s; simp [List.any_cons, h s]
        rw [ih _ _ hs]

lemma dedupGo_eq (rest : List NewsDict) :
    ∀ others : List NewsDict, ∀ nls : List (Str × NewsDict),
      dedupGo rest others nls
        = (others ++ rest.filter (fun x => !is_newsletter x))
          ++ (nls.map Prod.snd ++ firstNewsletterPerSource rest (nls.map Prod.fst)) := by
  induction rest with
  | nil => intro others nls; simp [dedupGo, firstNewsletterPerSource]
  | cons x r ih =>
    intro others nls
    simp only [dedupGo]
    have hmap : (nls.any (fun p => decide (p.1 = x.source)))
        = ((nls.map Prod.fst).any (fun t => decide (t = x.source))) := by
      induction nls with
      | nil => rfl
      | cons p ps iph => simp [List.any_cons, iph]
    cases hnl : is_newsletter x with
    | true =>
      simp only [if_true]
      cases hseen : nls.any (fun p => decide (p.1 = x.source)) with
      | true =>
        simp only [if_true]
        rw [ih others nls]
        simp [firstNewsletterPerSource, hnl, ← hmap, hseen, List.filter_cons]
      | false =>
        simp only [Bool.false_eq_true, if_false]
        rw [ih others (nls ++ [(x.source, x)])]
        have hcong : firstNewsletterPerSource r (nls.map Prod.fst ++ [x.source])
            = firstNewsletterPerSource r (x.source :: nls.map Prod.fst) := by
          apply firstNPS_congr
          intro s; simp [List.any_append, List.any_cons, Bool.or_comm]
        simp [firstNewsletterPerSource, hnl, ← hmap, hseen, List.filter_cons, hcong]
    | false =>
      simp only [Bool.false_eq_true, if_false]
      rw [ih (others ++ [x]) nls]
      simp [firstNewsletterPerSource, hnl, List.filter_cons]

/-- Embeds `_dedup_newsletters` emits every non-newsletter item first (in input
order), then the kept newsletters (first per source, in order of first
appearance) appended at the end. -/
lemma dedup_newsletters_eq (items : List NewsDict) :
    dedup_newsletters items
      = items.filter (fun x => !is_newsletter x) ++ firstNewsletterPerSource items [] := by
  rw [dedup_newsletters, dedupGo_eq]
  simp

lemma mem_firstNPS (x : NewsDict) :
    ∀ (items : List NewsDict) (seen : List Str),
      x ∈ firstNewsletterPerSource items seen → is_newsletter x = true := by
  intro items
  induction items with
  | nil => intro seen h; simp [firstNewsletterPerSource] at h
  | cons z rest ih =>
    intro seen h
    simp only [firstNewsletterPerSource] at h
    cases hnl : is_newsletter z with
    | true =>
      rw [hnl, if_pos rfl] at h
      cases hseen : seen.any (fun t => decide (t = z.source)) with
      | true => rw [hseen, if_pos rfl] at h; exact ih seen h
      | false =>
        rw [hseen] at h
        simp only [Bool.false_eq_true, if_false, List.mem_cons] at h
        rcases h with h | h
        · exact h ▸ hnl
        · exact ih _ h
    | false =>
      rw [hnl] at h
      simp only [Bool.false_eq_true, if_false] at h
      exact ih seen h

lemma firstNPS_filter_source (s : Str) :
    ∀ (items : List NewsDict) (seen : List Str),
      (firstNewsletterPerSource items seen).filter
          (fun x => is_newsletter x && decide (x.source = s))
        = if seen.any (fun t => decide (t = s)) then []
          else (items.filter (fun x => is_newsletter x && decide (x.source = s))).take 1 := by
  intro items
  induction items with
  | nil => intro seen; simp [firstNewsletterPerSource]
  | cons z rest ih =>
    intro seen
    simp only [firstNewsletterPerSource, List.filter_cons]
    cases hnl : is_newsletter z with
    | false =>
      simp only [Bool.false_eq_true, if_false]
      rw [ih seen]
      simp [hnl]
    | true =>
      simp only [eq_self_iff_true, if_true]
      by_cases hzs : z.source = s
      · subst hzs
        cases hseen : seen.any (fun t => decide (t = z.source)) with
        | true =>
          simp only [eq_self_iff_true, if_true]
          rw [ih seen]
          simp [hseen]
        | false =>
          simp only [Bool.false_eq_true, if_false, List.filter_cons]
          rw [ih (z.source :: seen)]
          have h2 : (z.source :: seen).any (fun t => decide (t = z.source)) = true := by
            simp [List.any_cons]
          simp [h2, hseen, hnl]
      · cases hseen : seen.any (fun t => decide (t = z.source)) with
        | true =>
          simp only [eq_self_iff_true, if_true]
          rw [ih seen]
          simp [hzs, hnl]
        | false =>
          simp only [Bool.false_eq_true, if_false, List.filter_cons]
          rw [ih (z.source :: seen)]
          have h2 : (z.source :: seen).any (fun t => decide (t = s))
              = seen.any (fun t => decide (t = s)) := by
            simp [List.any_cons, hzs]
          simp [h2, hzs, hnl]

/-- C6: `_dedup_newsletters` keeps every non-rollup item (in order), and for
each source keeps exactly the first rollup (newsletter-keyword) item:
its rollup items with source `s` are the first rollup item of the input
with source `s`.  In particular, of 3 "weekly digest" items all from
source "X", exactly the first survives. -/
theorem claim_C6 :
    (∀ items : List NewsDict,
        (dedup_newsletters items).filter (fun x => !is_newsletter x)
            = items.filter (fun x => !is_newsletter x)
        ∧ ∀ s : Str,
            (dedup_newsletters items).filter
                (fun x => is_newsletter x && decide (x.source = s))
              = (items.filter (fun x => is_newsletter x && decide (x.source = s))).take 1)
    ∧ dedup_newsletters [c6item1, c6item2, c6item3] = [c6item1] := by
  constructor
  · intro items
    constructor
    · rw [dedup_newsletters_eq, List.filter_append]
      have h1 : (items.filter (fun x => !is_newsletter x)).filter (fun x => !is_newsletter x)
          = items.filter (fun x => !is_newsletter x) := by
        apply List.filter_eq_self.mpr
        intro a ha
        exact (List.mem_filter.mp ha).2
      have h2 : (firstNewsletterPerSource items []).filter (fun x => !is_newsletter x)
          = [] := by
        apply List.filter_eq_nil_iff.mpr
        intro a ha
        simp [mem_firstNPS a items [] ha]
      rw [h1, h2, List.append_nil]
    · intro s
      rw [dedup_newsletters_eq, List.filter_append]
      have h1 : (items.filter (fun x => !is_newsletter x)).filter
          (fun x => is_newsletter x && decide (x.source = s)) = [] := by
        apply List.filter_eq_nil_iff.mpr
        intro a ha
        have h := (List.mem_filter.mp ha).2
        simp only [Bool.not_eq_true'] at h
        simp [h]
      rw [h1, List.nil_append, firstNPS_filter_source]
      simp
  · decide

lemma mixedTF_allTrue : ∀ B : List Bool, (∀ b ∈ B, b = true) → mixedTF B = false := by
  intro B
  induction B with
  | nil => intro _; rfl
  | cons b bs ih =>
    intro hB
    have hb : b = true := hB b (List.mem_cons_self _ _)
    subst hb
    have hany : bs.any (fun b => !b) = false := by
      cases hany : bs.any (fun b => !b) with
      | false => rfl
      | true =>
        obtain ⟨y, hy, hyn⟩ := List.any_eq_true.mp hany
        have := hB y (List.mem_cons_of_mem _ hy)
        simp [this] at hyn
    simp [mixedTF, hany, ih (fun b hb => hB b (List.mem_cons_of_mem _ hb))]

lemma mixedTF_false (A B : List Bool) (hA : ∀ a ∈ A, a = false) (hB : ∀ b ∈ B, b = true) :
    mixedTF (A ++ B) = false := by
  induction A with
  | nil => simpa using mixedTF_allTrue B hB
  | cons a as ih =>
    have ha : a = false := hA a (List.mem_cons_self _ _)
    subst ha
    simp only [List.cons_append, mixedTF]
    exact ih (fun a h => hA a (List.mem_cons_of_mem _ h))

lemma mixedTF_true (l₂ : List Bool) (hy : ∃ y ∈ l₂, y = false) :
    ∀ l₁ : List Bool, mixedTF (l₁ ++ true :: l₂) = true := by
  intro l₁
  induction l₁ with
  | nil =>
    obtain ⟨y, hmem, hfalse⟩ := hy
    have hany : l₂.any (fun b => !b) = true :=
      List.any_eq_true.mpr ⟨y, hmem, by simp [hfalse]⟩
    simp [mixedTF, hany]
  | cons a l ih =>
    cases a with
    | true => simp [mixedTF, ih]
    | false => simpa [mixedTF] using ih

lemma survivorsGo_nonNl_mem (y : NewsDict) (hy : is_newsletter y = false) :
    ∀ (Q : List NewsDict) (seen : List Str), y ∈ Q → y ∈ survivorsGo Q seen := by
  intro Q
  induction Q with
  | nil => intro seen h; cases h
  | cons z rest ih =>
    intro seen h
    simp only [survivorsGo]
    rcases List.mem_cons.mp h with rfl | hmem
    · rw [hy]
      simp
    · cases hnl : is_newsletter z with
      | false =>
        simp only [Bool.false_eq_true, if_false, List.mem_cons]
        exact Or.inr (ih seen hmem)
      | true =>
        cases hseen : seen.any (fun t => decide (t = z.source)) with
        | true => simpa using ih seen hmem
        | false => simp [List.mem_cons, ih (z.source :: seen) hmem]

lemma survivorsGo_split (x : NewsDict) (hx : is_newsletter x = true) :
    ∀ (P : List NewsDict) (Q : List NewsDict) (seen : List Str),
      seen.any (fun t => decide (t = x.source)) = false →
      (∀ z ∈ P, ¬(is_newsletter z = true ∧ z.source = x.source)) →
      ∃ (L₁ : List NewsDict) (seen₂ : List Str),
        survivorsGo (P ++ x :: Q) seen = L₁ ++ x :: survivorsGo Q (x.source :: seen₂) := by
  intro P
  induction P with
  | nil =>
    intro Q seen hseen _
    refine ⟨[], seen, ?_⟩
    simp [survivorsGo, hx, hseen]
  | cons z P ih =>
    intro Q seen hseen hP
    simp only [List.cons_append, survivorsGo]
    cases hnl : is_newsletter z with
    | false =>
      obtain ⟨L₁, seen₂, hL⟩ := ih Q seen hseen (fun w hw => hP w (List.mem_cons_of_mem _ hw))
      exact ⟨z :: L₁, seen₂, by simp [hL]⟩
    | true =>
      cases hseenz : seen.any (fun t => decide (t = z.source)) with
      | true =>
        obtain ⟨L₁, seen₂, hL⟩ := ih Q seen hseen (fun w hw => hP w (List.mem_cons_of_mem _ hw))
        exact ⟨L₁, seen₂, by simp [hL]⟩
      | false =>
        have hzx : ¬(z.source = x.source) := fun he => hP z (List.mem_cons_self _ _) ⟨hnl, he⟩
        have hseen2 : (z.source :: seen).any (fun t => decide (t = x.source)) = false := by
          simp [List.any_cons, hzx, hseen]
        obtain ⟨L₁, seen₂, hL⟩ :=
          ih Q (z.source :: seen) hseen2 (fun w hw => hP w (List.mem_cons_of_mem _ hw))
        exact ⟨z :: L₁, seen₂, by simp [hL]⟩

/-- C10 (implicit): `_dedup_newsletters` does not preserve the input order of
the surviving items.  Its output is the non-rollup items in original
relative order followed by the kept rollup items (one per source) appended
at the end; consequently, whenever a rollup item survives (it is a
newsletter and no earlier newsletter shares its source) and at least one
non-rollup item appears after it in the input, the output differs from the
survivors listed in ingestion order. -/
theorem claim_C10 :
    (∀ items : List NewsDict,
        dedup_newsletters items
          = items.filter (fun x => !is_newsletter x) ++ firstNewsletterPerSource items [])
    ∧ ∀ (P Q : List NewsDict) (x : NewsDict),
        is_newsletter x = true →
        (∀ z ∈ P, ¬(is_newsletter z = true ∧ z.source = x.source)) →
        (∃ y ∈ Q, is_newsletter y = false) →
        dedup_newsletters (P ++ x :: Q) ≠ survivorsInOrder (P ++ x :: Q) := by
  constructor
  · exact dedup_newsletters_eq
  · intro P Q x hx hP hy h
    obtain ⟨L₁, seen₂, hL⟩ := survivorsGo_split x hx P Q [] (by rfl) hP
    have hmapDedup :
        mixedTF ((dedup_newsletters (P ++ x :: Q)).map is_newsletter) = false := by
      rw [dedup_newsletters_eq, List.map_append]
      apply mixedTF_false
      · intro b hb
        obtain ⟨a, ha, rfl⟩ := List.mem_map.mp hb
        have := List.of_mem_filter ha
        simpa using this
      · intro b hb
        obtain ⟨a, ha, rfl⟩ := List.mem_map.mp hb
        exact mem_firstNPS a _ _ ha
    have hmapSurv :
        mixedTF ((survivorsInOrder (P ++ x :: Q)).map is_newsletter) = true := by
      rw [survivorsInOrder, hL, List.map_append, List.map_cons, hx]
      apply mixedTF_true
      obtain ⟨y, hyQ, hyn⟩ := hy
      exact ⟨is_newsletter y,
        List.mem_map.mpr ⟨y, survivorsGo_nonNl_mem y hyn Q (x.source :: seen₂) hyQ, rfl⟩, hyn⟩
    rw [h] at hmapDedup
    rw [hmapDedup] at hmapSurv
    exact Bool.false_ne_true hmapSurv

/-- Witness for C10: the run `[rollup, plain]` — the rollup survives and a
non-rollup item follows it, so the dedup output is not in ingestion order. -/
theorem claim_C10_witness :
    dedup_newsletters [c10rollup, c10plain] ≠ survivorsInOrder [c10rollup, c10plain] :=
  claim_C10.2 [] [c10plain] c10rollup (by decide) (by simp)
    ⟨c10plain, List.mem_singleton.mpr rfl, by decide⟩

lemma countP_firstNPS_le (p : NewsDict → Bool) :
    ∀ (items : List NewsDict) (seen : List Str),
      (firstNewsletterPerSource items seen).countP p
        ≤ (items.filter (fun x => is_newsletter x)).countP p := by
  intro items
  induction items with
  | nil => intro seen; simp [firstNewsletterPerSource]
  | cons z rest ih =>
    intro seen
    simp only [firstNewsletterPerSource, List.filter_cons]
    cases hnl : is_newsletter z with
    | false =>
      simp only [Bool.false_eq_true, if_false]
      exact ih seen
    | true =>
      simp only [if_true]
      cases hseen : seen.any (fun t => decide (t = z.source)) with
      | true =>
        simp only [if_true, List.countP_cons]
        exact le_trans (ih seen) (Nat.le_add_right _ _)
      | false =>
        simp only [Bool.false_eq_true, if_false, List.countP_cons]
        exact Nat.add_le_add_right (ih (z.source :: seen)) _

lemma countP_split (p q : NewsDict → Bool) (l : List NewsDict) :
    l.countP p
      = (l.filter q).countP p + (l.filter (fun x => !q x)).countP p := by
  induction l with
  | nil => simp
  | cons a l ih =>
    simp only [List.countP_cons, List.filter_cons]
    cases hq : q a with
    | true => simp [List.countP_cons, ih]; omega
    | false => simp [List.countP_cons, ih]; omega

lemma countP_dedup_le (p : NewsDict → Bool) (items : List NewsDict) :
    (dedup_newsletters items).countP p ≤ items.countP p := by
  rw [dedup_newsletters_eq, List.countP_append]
  have h1 := countP_firstNPS_le p items []
  have h2 := countP_split p (fun x => is_newsletter x) items
  omega

/-- C5 (amended): the canonical id is a pure function of the link (equal
links always yield equal ids), and the two post-accumulation steps of
`fetch_all` only ever drop items — they never add items matching any
property.  But `fetch_all` performs no id-level dedup, so several items
sharing one link (hence one id) can all appear in its output. -/
theorem claim_C5_thm :
    (∀ (md5hex : Str → Str) (link₁ link₂ : Str), link₁ = link₂ →
        generate_id md5hex link₁ = generate_id md5hex link₂)
    ∧ ∀ (ctx : RssCtx) (feeds : Source → List FeedEntry)
        (webFetch : Source → List NewsDict) (sources : List Source)
        (maxItems : Nat) (p : NewsDict → Bool),
        (fetch_all ctx feeds webFetch sources maxItems).countP p
          ≤ (fetch_all_raw ctx feeds webFetch sources maxItems).countP p := by
  constructor
  · intro md5hex l₁ l₂ h
    rw [h]
  · intro ctx feeds webFetch sources maxItems p
    rw [fetch_all]
    calc (filter_corporate_news
            (dedup_newsletters (fetch_all_raw ctx feeds webFetch sources maxItems))).countP p
        ≤ (dedup_newsletters (fetch_all_raw ctx feeds webFetch sources maxItems)).countP p := by
          rw [filter_corporate_news]
          exact (List.filter_sublist _).countP_le p
      _ ≤ (fetch_all_raw ctx feeds webFetch sources maxItems).countP p :=
          countP_dedup_le p _

/-- Counterexample to C5 as stated: two raw items sharing the link "L1"
both survive `fetch_all`; the output holds two (distinct) items whose id
is the canonical id of that link, not at most one. -/
theorem claim_C5_counterexample :
    ¬ ((fetch_all c5ctx (fun _ => [c5entry1, c5entry2]) (fun _ => []) [c5source] 5).countP
          (fun it => decide (it.id = generate_id c5ctx.md5hex "L1".toList)) ≤ 1) := by
  decide

/-- Witness instantiating `claim_C5_thm` on the concrete C5 run. -/
theorem claim_C5_witness :
    generate_id (fun s => s) "L1".toList = generate_id (fun s => s) "L1".toList ∧
    (fetch_all c5ctx (fun _ => [c5entry1, c5entry2]) (fun _ => []) [c5source] 5).countP
        (fun it => decide (it.id = "L1".toList))
      ≤ (fetch_all_raw c5ctx (fun _ => [c5entry1, c5entry2]) (fun _ => []) [c5source] 5).countP
          (fun it => decide (it.id = "L1".toList)) :=
  ⟨claim_C5_thm.1 (fun s => s) "L1".toList "L1".toList rfl,
   claim_C5_thm.2 c5ctx (fun _ => [c5entry1, c5entry2]) (fun _ => []) [c5source] 5 _⟩

lemma mem_insAsc (x a : Int) : ∀ l : List Int, a ∈ insAsc x l ↔ a = x ∨ a ∈ l := by
  intro l
  induction l with
  | nil => simp [insAsc]
  | cons y ys ih =>
    simp only [insAsc]
    by_cases h1 : x < y
    · simp [h1, List.mem_cons]
    · by_cases h2 : x = y
      · subst h2; simp [h1, List.mem_cons]
      · simp only [h1, h2, if_false, List.mem_cons, ih]
        tauto

lemma insAsc_sorted (x : Int) :
    ∀ l : List Int, l.Sorted (· < ·) → (insAsc x l).Sorted (· < ·) := by
  intro l
  induction l with
  | nil => intro _; simp [insAsc]
  | cons y ys ih =>
    intro hs
    rw [List.sorted_cons] at hs
    simp only [insAsc]
    by_cases h1 : x < y
    · rw [if_pos h1, List.sorted_cons]
      constructor
      · intro b hb
        rcases List.mem_cons.mp hb with rfl | hbys
        · exact h1
        · exact lt_trans h1 (hs.1 b hbys)
      · rw [List.sorted_cons]; exact hs
    · rw [if_neg h1]
      by_cases h2 : x = y
      · rw [if_pos h2, List.sorted_cons]
        exact hs
      · rw [if_neg h2, List.sorted_cons]
        constructor
        · intro b hb
          rcases (mem_insAsc x b ys).mp hb with rfl | hbys
          · omega
          · exact hs.1 b hbys
        · exact ih hs.2

lemma foldl_insAsc_mem (a : Int) :
    ∀ (l : List Int) (acc : List Int),
      a ∈ l.foldl (fun acc x => insAsc x acc) acc ↔ a ∈ acc ∨ a ∈ l := by
  intro l
  induction l with
  | nil => intro acc; simp
  | cons x xs ih =>
    intro acc
    simp only [List.foldl_cons, ih, mem_insAsc, List.mem_cons]
    tauto

lemma foldl_insAsc_sorted :
    ∀ (l : List Int) (acc : List Int),
      acc.Sorted (· < ·) → (l.foldl (fun acc x => insAsc x acc) acc).Sorted (· < ·) := by
  intro l
  induction l with
  | nil => intro acc h; simpa using h
  | cons x xs ih =>
    intro acc h
    exact ih _ (insAsc_sorted x acc h)

lemma sortedDedup_mem (l : List Int) (a : Int) : a ∈ sortedDedup l ↔ a ∈ l := by
  rw [sortedDedup, foldl_insAsc_mem]
  simp

lemma sortedDedup_sorted (l : List Int) : (sortedDedup l).Sorted (· < ·) :=
  foldl_insAsc_sorted l [] (by simp)

lemma intRange_sorted (n : Nat) : ((List.range n).map Int.ofNat).Sorted (· < ·) := by
  rw [List.Sorted, List.pairwise_map]
  exact (List.pairwise_lt_range n).imp (fun h => Int.ofNat_lt.mpr h)

lemma sortedDedup_eq_range (l : List Int) (n : Nat)
    (h : ∀ a : Int, a ∈ l ↔ ∃ k : Nat, k < n ∧ a = Int.ofNat k) :
    sortedDedup l = (List.range n).map Int.ofNat := by
  have s1 := sortedDedup_sorted l
  have s2 := intRange_sorted n
  refine List.eq_of_perm_of_sorted ?_ s1 s2
  refine (List.perm_ext_iff_of_nodup s1.nodup s2.nodup).mpr ?_
  intro a
  rw [sortedDedup_mem, h a]
  simp only [List.mem_map, List.mem_range]
  constructor
  · rintro ⟨k, hk, rfl⟩; exact ⟨k, hk, rfl⟩
  · rintro ⟨k, hk, rfl⟩; exact ⟨k, hk, rfl⟩

lemma partitionIdx_mem (P : NewsDict → Bool) :
    ∀ (items : List NewsDict) (i k : Nat),
      (k ∈ (partitionIdx P items i).1 ∨ k ∈ (partitionIdx P items i).2)
        ↔ (i ≤ k ∧ k < i + items.length) := by
  intro items
  induction items with
  | nil => intro i k; simp [partitionIdx]
  | cons x rest ih =>
    intro i k
    simp only [partitionIdx]
    cases hp : P x with
    | true =>
      simp only [if_true, List.mem_cons, List.length_cons]
      have := ih (i + 1) k
      constructor
      · rintro (⟨rfl | hk⟩ | hk)
        · omega
        · have := this.mp (Or.inl hk); omega
        · have := this.mp (Or.inr hk); omega
      · intro hk
        by_cases hik : k = i
        · exact Or.inl (Or.inl hik)
        · rcases this.mpr (by omega) with h | h
          · exact Or.inl (Or.inr h)
          · exact Or.inr h
    | false =>
      simp only [Bool.false_eq_true, if_false, List.mem_cons, List.length_cons]
      have := ih (i + 1) k
      constructor
      · rintro (hk | ⟨rfl | hk⟩)
        · have := this.mp (Or.inl hk); omega
        · omega
        · have := this.mp (Or.inr hk); omega
      · intro hk
        by_cases hik : k = i
        · exact Or.inr (Or.inl hik)
        · rcases this.mpr (by omega) with h | h
          · exact Or.inl h
          · exact Or.inr (Or.inr h)

lemma buildKeep_drop (items : List NewsDict) :
    ∀ (suffix : List NewsDict) (j : Nat), items.drop j = suffix →
      buildKeep items ((List.range suffix.length).map (fun k => Int.ofNat (j + k)))
        = some suffix := by
  intro suffix
  induction suffix with
  | nil => intro j _; simp [buildKeep]
  | cons x rest ih =>
    intro j hdrop
    have hget : items.get? j = some x := by
      have h0 : (items.drop j).get? 0 = some x := by rw [hdrop]; rfl
      rwa [List.get?_drop, Nat.add_zero] at h0
    have hdrop1 : items.drop (j + 1) = rest := by
      have : items.drop (j + 1) = (items.drop j).drop 1 := by
        rw [List.drop_drop, Nat.add_comm]
      rw [this, hdrop]
      rfl
    simp only [List.length_cons, List.range_succ_eq_map, List.map_cons, List.map_map,
      buildKeep]
    have hpy : pyGet items (Int.ofNat (j + 0)) = some x := by
      simp only [pyGet, Nat.add_zero, Int.ofNat_eq_coe]
      rw [if_pos (by omega)]
      simpa using hget
    rw [hpy]
    have harg : (List.range rest.length).map ((fun k => Int.ofNat (j + k)) ∘ Nat.succ)
        = (List.range rest.length).map (fun k => Int.ofNat ((j + 1) + k)) := by
      apply List.map_congr_left
      intro a _
      simp only [Function.comp]
      congr 1
      omega
    rw [harg, ih (j + 1) hdrop1]
    rfl

lemma buildKeep_range (items : List NewsDict) :
    buildKeep items ((List.range items.length).map Int.ofNat) = some items := by
  have h := buildKeep_drop items items 0 (by simp)
  have harg : (List.range items.length).map (fun k => Int.ofNat (0 + k))
      = (List.range items.length).map Int.ofNat := by
    apply List.map_congr_left
    intro a _
    congr 1
    omega
  rwa [harg] at h

/-- C4 (amended): `_filter_news` fails open — keeps every item — when the
relevance call raises, when the reply has no brace pair, when the brace
substring is invalid JSON, or when one of the returned ids is not an
integer.  (When the reply parses as an object *missing* the
`relevant_ids` key, the code does not fail open: `.get` yields `[]` and
every checked item is dropped — see the counterexample.) -/
lemma filter_news_keepAll (items : List NewsDict) :
    buildKeep items
        (sortedDedup ((partitionIdx isProtected items 0).1.map Int.ofNat
          ++ (partitionIdx isProtected items 0).2.map Int.ofNat))
      = some items := by
  have hmem : ∀ a : Int,
      a ∈ (partitionIdx isProtected items 0).1.map Int.ofNat
            ++ (partitionIdx isProtected items 0).2.map Int.ofNat
        ↔ ∃ k : Nat, k < items.length ∧ a = Int.ofNat k := by
    intro a
    rw [List.mem_append]
    simp only [List.mem_map]
    constructor
    · rintro (⟨k, hk, rfl⟩ | ⟨k, hk, rfl⟩)
      · have := (partitionIdx_mem isProtected items 0 k).mp (Or.inl hk)
        exact ⟨k, by omega, rfl⟩
      · have := (partitionIdx_mem isProtected items 0 k).mp (Or.inr hk)
        exact ⟨k, by omega, rfl⟩
    · rintro ⟨k, hk, rfl⟩
      rcases (partitionIdx_mem isProtected items 0 k).mpr (by omega) with hmem | hmem
      · exact Or.inl ⟨k, hmem, rfl⟩
      · exact Or.inr ⟨k, hmem, rfl⟩
  rw [sortedDedup_eq_range _ items.length hmem]
  exact buildKeep_range items

theorem claim_C4_thm (items : List NewsDict) (resp : FilterResp)
    (h : resp = .transportError ∨ resp = .noBraces ∨ resp = .badJson
      ∨ ∃ ids, resp = .parsed (some ids) ∧ ids.mapM pyInt = none) :
    filter_news items resp = some items := by
  rcases h with rfl | rfl | rfl | ⟨ids, rfl, hids⟩
  case inl =>
    simp only [filter_news]
    by_cases hchk : (partitionIdx isProtected items 0).2 = [] <;>
      simp only [hchk, if_true, if_false] <;>
      first | rfl | exact filter_news_keepAll items
  case inr.inl =>
    simp only [filter_news]
    by_cases hchk : (partitionIdx isProtected items 0).2 = [] <;>
      simp only [hchk, if_true, if_false] <;>
      first | rfl | exact filter_news_keepAll items
  case inr.inr.inl =>
    simp only [filter_news]
    by_cases hchk : (partitionIdx isProtected items 0).2 = [] <;>
      simp only [hchk, if_true, if_false] <;>
      first | rfl | exact filter_news_keepAll items
  case inr.inr.inr =>
    simp only [filter_news, hids]
    by_cases hchk : (partitionIdx isProtected items 0).2 = [] <;>
      simp only [hchk, if_true, if_false] <;>
      first | rfl | exact filter_news_keepAll items

/-- Counterexample to C4 as stated: a reply that parses as a JSON object
but lacks the `relevant_ids`/`filtered_ids` keys does *not* fail open —
the checked item is dropped, only the allowlisted item survives. -/
theorem claim_C4_counterexample :
    filter_news [c4protected, c4checked] (.parsed none) = some [c4protected] := by
  decide

/-- Witness instantiating `claim_C4_thm`: on a malformed (no-brace-pair)
reply every item, checked or protected, is kept. -/
theorem claim_C4_witness :
    filter_news [c4protected, c4checked] .noBraces = some [c4protected, c4checked] :=
  claim_C4_thm [c4protected, c4checked] .noBraces (Or.inr (Or.inl rfl))

lemma dictLookup_insert_ne (d : CatDict) (i k : Int) (c : Str) (h : ¬(i = k)) :
    dictLookup (dictInsert i c d) k = dictLookup d k := by
  simp [dictLookup, dictInsert, List.find?_cons, h]

lemma applyOverrides_lookup_lt :
    ∀ (rest : List NewsDict) (i : Int) (d : CatDict) (k : Int), k < i →
      dictLookup (applyOverrides rest i d) k = dictLookup d k := by
  intro rest
  induction rest with
  | nil => intro i d k _; rfl
  | cons x r ih =>
    intro i d k hk
    simp only [applyOverrides]
    rw [ih (i + 1) _ k (by omega)]
    cases hf : forced_category x.source with
    | some c => exact dictLookup_insert_ne d i k c (by omega)
    | none =>
      cases hkw : keyword_category (pyLower x.title) with
      | some c => exact dictLookup_insert_ne d i k c (by omega)
      | none => rfl

lemma applyOverrides_lookup_forced :
    ∀ (rest : List NewsDict) (j : Nat) (it : NewsDict) (c : Str) (i : Int) (d : CatDict),
      rest.get? j = some it → forced_category it.source = some c →
      dictLookup (applyOverrides rest i d) (i + (j : Int)) = some c := by
  intro rest
  induction rest with
  | nil => intro j it c i d hget _; simp [List.get?] at hget
  | cons x r ih =>
    intro j it c i d hget hforced
    cases j with
    | zero =>
      have hx : x = it := by simpa using hget
      subst hx
      simp only [applyOverrides, hforced, Nat.cast_zero, Int.add_zero]
      rw [applyOverrides_lookup_lt r (i + 1) _ i (by omega)]
      simp [dictLookup, dictInsert, List.find?_cons]
    | succ j' =>
      have hget' : r.get? j' = some it := by simpa using hget
      have := ih j' it c (i + 1) (match forced_category x.source with
        | some c0 => dictInsert i c0 d
        | none =>
          match keyword_category (pyLower x.title) with
          | some c0 => dictInsert i c0 d
          | none => d) hget' hforced
      simp only [applyOverrides]
      have harith : i + ((j' : Int) + 1) = (i + 1) + (j' : Int) := by omega
      rw [Nat.cast_succ, harith]
      exact this

lemma scoreFallbackGo_get (d : CatDict) :
    ∀ (rest : List NewsDict) (i : Int) (j : Nat) (it : NewsDict),
      rest.get? j = some it →
      (scoreFallbackGo d rest i).get? j
        = some (mkScored it 5 [] ((dictLookup d (i + (j : Int))).getD default_category)) := by
  intro rest
  induction rest with
  | nil => intro i j it hget; simp [List.get?] at hget
  | cons x r ih =>
    intro i j it hget
    cases j with
    | zero =>
      have hx : x = it := by simpa using hget
      subst hx
      simp [scoreFallbackGo]
    | succ j' =>
      have hget' : r.get? j' = some it := by simpa using hget
      have := ih (i + 1) j' it hget'
      simp only [scoreFallbackGo, List.get?]
      rw [this]
      have harith : (i + 1) + (j' : Int) = i + ((j' : Int) + 1) := by omega
      rw [harith, Nat.cast_succ]

lemma scoreFallbackGo_length (d : CatDict) :
    ∀ (rest : List NewsDict) (i : Int), (scoreFallbackGo d rest i).length = rest.length := by
  intro rest
  induction rest with
  | nil => intro i; rfl
  | cons x r ih => intro i; simp [scoreFallbackGo, ih]

lemma mem_scoreFallbackGo (d : CatDict) (out : NewsDict) :
    ∀ (rest : List NewsDict) (i : Int), out ∈ scoreFallbackGo d rest i →
      ∃ (j : Nat) (it : NewsDict), rest.get? j = some it ∧
        out = mkScored it 5 [] ((dictLookup d (i + (j : Int))).getD default_category) := by
  intro rest
  induction rest with
  | nil => intro i h; simp [scoreFallbackGo] at h
  | cons x r ih =>
    intro i h
    simp only [scoreFallbackGo, List.mem_cons] at h
    rcases h with rfl | h
    · exact ⟨0, x, rfl, by simp⟩
    · obtain ⟨j, it, hget, hout⟩ := ih (i + 1) h
      refine ⟨j + 1, it, by simpa using hget, ?_⟩
      rw [hout]
      have harith : (i + 1) + (j : Int) = i + ((j : Int) + 1) := by omega
      rw [harith, Nat.cast_succ]

lemma mem_mergeScores (items : List NewsDict) (d : CatDict) (out : NewsDict) :
    ∀ (entries : List ScoreEntry) (res : List NewsDict),
      mergeScores items d entries = some res → out ∈ res →
      ∃ e ∈ entries, ∃ (s : Str) (nid : Int) (base : NewsDict) (sc : Int),
        e.id = some s ∧ pyInt s = some nid ∧ nid < (items.length : Int) ∧
        pyGet items nid = some base ∧ e.score = some sc ∧
        out = mkScored base sc (e.reason.getD [])
          ((dictLookup d nid).getD default_category) := by
  intro entries
  induction entries with
  | nil =>
    intro res hres hout
    simp only [mergeScores, Option.some.injEq] at hres
    subst hres
    cases hout
  | cons e rest ih =>
    intro res hres hout
    obtain ⟨eid, esc, ers⟩ := e
    cases eid with
    | none => simp [mergeScores] at hres
    | some s =>
      cases hint : pyInt s with
      | none => simp [mergeScores, hint] at hres
      | some nid =>
        simp only [mergeScores, hint] at hres
        by_cases hlt : nid < (items.length : Int)
        · rw [if_pos hlt] at hres
          cases esc with
          | none => simp at hres
          | some sc =>
            cases hbase : pyGet items nid with
            | none => simp [hbase] at hres
            | some base =>
              simp only [hbase] at hres
              cases htail : mergeScores items d rest with
              | none => simp [htail] at hres
              | some tail =>
                rw [htail] at hres
                have hres2 : (mkScored base sc (ers.getD [])
                    ((dictLookup d nid).getD default_category) :: tail) = res :=
                  Option.some.inj hres
                subst hres2
                rcases List.mem_cons.mp hout with rfl | hmem
                · exact ⟨⟨some s, some sc, ers⟩, List.mem_cons_self _ _, s, nid, base, sc,
                    rfl, hint, hlt, hbase, rfl, rfl⟩
                · obtain ⟨e', he', rest'⟩ := ih tail htail hmem
                  exact ⟨e', List.mem_cons_of_mem _ he', rest'⟩
        · rw [if_neg hlt] at hres
          obtain ⟨e', he', rest'⟩ := ih res hres hout
          exact ⟨e', List.mem_cons_of_mem _ he', rest'⟩

lemma score_news_parseFail (items : List NewsDict) (categorized : List (Str × List Int)) :
    score_news items categorized .parseFail
      = scoreFallbackGo (id_to_category items categorized) items 0 := rfl

lemma score_news_parsed_eq (items : List NewsDict) (categorized : List (Str × List Int))
    (entries : List ScoreEntry) :
    score_news items categorized (.parsed entries)
      = match mergeScores items (id_to_category items categorized) entries with
        | none => scoreFallbackGo (id_to_category items categorized) items 0
        | some out => out := rfl

lemma score_news_merge_none (items : List NewsDict) (categorized : List (Str × List Int))
    (entries : List ScoreEntry)
    (h : mergeScores items (id_to_category items categorized) entries = none) :
    score_news items categorized (.parsed entries)
      = scoreFallbackGo (id_to_category items categorized) items 0 := by
  rw [score_news_parsed_eq, h]

lemma score_news_merge_some (items : List NewsDict) (categorized : List (Str × List Int))
    (entries : List ScoreEntry) (res : List NewsDict)
    (h : mergeScores items (id_to_category items categorized) entries = some res) :
    score_news items categorized (.parsed entries) = res := by
  rw [score_news_parsed_eq, h]

lemma id_to_category_forced (items : List NewsDict) (categorized : List (Str × List Int))
    (j : Nat) (it : NewsDict) (c : Str)
    (hget : items.get? j = some it) (hforced : forced_category it.source = some c) :
    dictLookup (id_to_category items categorized) (j : Int) = some c := by
  have := applyOverrides_lookup_forced items j it c 0 (buildIdToCategory categorized)
    hget hforced
  rwa [Int.zero_add] at this

/-- C1 (amended): for every output entry of `_score_news` whose source is
in `SOURCE_CATEGORY_MAP`, the attached category is the forced one — for
the fallback path unconditionally, and for the merge path whenever the
response ids are non-negative.  (A *negative* response id clones an item
through Python negative indexing while reading `id_to_category` at the
negative key, bypassing the override — see the counterexample.) -/
theorem claim_C1_thm (items : List NewsDict) (categorized : List (Str × List Int))
    (resp : ScoreResp) (hresp : respIdsNonneg resp) :
    ∀ out ∈ score_news items categorized resp, ∀ c : Str,
      forced_category out.source = some c → out.category = some c := by
  intro out hout c hc
  have hfallback : ∀ (hmem : out ∈ scoreFallbackGo (id_to_category items categorized) items 0),
      out.category = some c := by
    intro hmem
    obtain ⟨j, it, hget, hout_eq⟩ := mem_scoreFallbackGo _ out items 0 hmem
    have hsource : out.source = it.source := by rw [hout_eq]; rfl
    rw [hsource] at hc
    have hlook := id_to_category_forced items categorized j it c hget hc
    rw [hout_eq]
    simp only [mkScored]
    rw [Int.zero_add] at hout_eq ⊢
    rw [hlook]
    rfl
  cases resp with
  | parseFail =>
    rw [score_news_parseFail] at hout
    exact hfallback hout
  | parsed entries =>
    cases hmerge : mergeScores items (id_to_category items categorized) entries with
    | none =>
      rw [score_news_merge_none items categorized entries hmerge] at hout
      exact hfallback hout
    | some res =>
      rw [score_news_merge_some items categorized entries res hmerge] at hout
      obtain ⟨e, he, s, nid, base, sc, hid, hint, hlt, hbase, hsc, hout_eq⟩ :=
        mem_mergeScores items _ out entries res hmerge hout
      have hnn : (0 : Int) ≤ nid := by
        have h1 := hresp e he
        simp only [entryIdNonneg, hid, hint, decide_eq_true_eq] at h1
        exact h1
      have hsource : out.source = base.source := by rw [hout_eq]; rfl
      rw [hsource] at hc
      have hget : items.get? nid.toNat = some base := by
        rw [pyGet, if_pos hnn] at hbase
        exact hbase
      have hcast : ((nid.toNat : Nat) : Int) = nid := Int.toNat_of_nonneg hnn
      have hlook := id_to_category_forced items categorized nid.toNat base c hget hc
      rw [hcast] at hlook
      rw [hout_eq]
      simp only [mkScored]
      rw [hlook]
      rfl

/-- Counterexample to C1 as stated: a scoring-response id of `-1` passes the
`news_id < len(news_items)` guard, clones the AWS-source item via Python
negative indexing, but reads `id_to_category` at key `-1`, so the output
carries the default category instead of the forced "AWS 聚焦". -/
theorem claim_C1_counterexample :
    forced_category c1awsItem.source = some "AWS 聚焦".toList ∧
    score_news [c1awsItem] [] (.parsed [⟨some "-1".toList, some 7, none⟩])
      = [mkScored c1awsItem 7 [] default_category] ∧
    (mkScored c1awsItem 7 [] default_category).category ≠ some "AWS 聚焦".toList := by
  refine ⟨by decide, by decide, by decide⟩

/-- Witness instantiating `claim_C1_thm` on a run whose response id is the
ordinary `"0"`: the classification said "行业动态" but the forced source
map wins. -/
theorem claim_C1_witness :
    (mkScored c1awsItem 7 "r".toList "AWS 聚焦".toList).category
      = some "AWS 聚焦".toList :=
  claim_C1_thm [c1awsItem] [("行业动态".toList, [0])]
    (.parsed [⟨some "0".toList, some 7, some "r".toList⟩])
    (fun e he => by rw [List.mem_singleton] at he; subst he; decide)
    (mkScored c1awsItem 7 "r".toList "AWS 聚焦".toList) (by decide)
    "AWS 聚焦".toList (by decide)

lemma mergeScores_length (items : List NewsDict) (d : CatDict) :
    ∀ (entries : List ScoreEntry) (res : List NewsDict),
      mergeScores items d entries = some res →
      res.length = entries.countP (entryInRange items) := by
  intro entries
  induction entries with
  | nil =>
    intro res hres
    simp only [mergeScores, Option.some.injEq] at hres
    subst hres
    rfl
  | cons e rest ih =>
    intro res hres
    obtain ⟨eid, esc, ers⟩ := e
    cases eid with
    | none => simp [mergeScores] at hres
    | some s =>
      cases hint : pyInt s with
      | none => simp [mergeScores, hint] at hres
      | some nid =>
        simp only [mergeScores, hint] at hres
        by_cases hlt : nid < (items.length : Int)
        · rw [if_pos hlt] at hres
          cases esc with
          | none => simp at hres
          | some sc =>
            cases hbase : pyGet items nid with
            | none => simp [hbase] at hres
            | some base =>
              simp only [hbase] at hres
              cases htail : mergeScores items d rest with
              | none => simp [htail] at hres
              | some tail =>
                rw [htail] at hres
                have hres2 : (mkScored base sc (ers.getD [])
                    ((dictLookup d nid).getD default_category) :: tail) = res :=
                  Option.some.inj hres
                subst hres2
                rw [List.countP_cons]
                have hcount : entryInRange items ⟨some s, some sc, ers⟩ = true := by
                  simp only [entryInRange, hint, decide_eq_true_eq]
                  exact hlt
                rw [hcount]
                simp [List.length_cons, ih tail htail]
        · rw [if_neg hlt] at hres
          rw [List.countP_cons]
          have hcount : entryInRange items ⟨some s, esc, ers⟩ = false := by
            simp only [entryInRange, hint, decide_eq_false_iff_not]
            exact hlt
          rw [hcount, ih res hres]
          simp

/-- C2 (amended): when the scoring response parses and the merge loop
finishes without raising, the stage's output has exactly one entry per
response element whose id parses to an integer below `len(news_items)`,
in response order — an input item whose index is absent from the
response's ids is dropped, not retained with a default (the default path
runs only when parsing or merging fails wholesale). -/
theorem claim_C2_thm (items : List NewsDict) (categorized : List (Str × List Int))
    (entries : List ScoreEntry) (res : List NewsDict)
    (h : mergeScores items (id_to_category items categorized) entries = some res) :
    score_news items categorized (.parsed entries) = res ∧
    res.length = entries.countP (entryInRange items) := by
  exact ⟨score_news_merge_some items categorized entries res h,
    mergeScores_length items _ entries res h⟩

/-- Counterexample to C2 as stated: the response names only index 0; input
item 1 does not appear in the output at all (with or without a default
score) — the output is the single merged copy of item 0. -/
theorem claim_C2_counterexample :
    score_news [c2itemA, c2itemB] []
        (.parsed [⟨some "0".toList, some 7, some "ok".toList⟩])
      = [mkScored c2itemA 7 "ok".toList default_category] ∧
    (mkScored c2itemA 7 "ok".toList default_category).title ≠ c2itemB.title := by
  refine ⟨by decide, by decide⟩

/-- Witness instantiating `claim_C2_thm` on the two-item run whose
response names only index 0. -/
theorem claim_C2_witness :
    score_news [c2itemA, c2itemB] []
        (.parsed [⟨some "0".toList, some 7, some "ok".toList⟩])
      = [mkScored c2itemA 7 "ok".toList default_category] ∧
    ([mkScored c2itemA 7 "ok".toList default_category] : List NewsDict).length
      = ([⟨some "0".toList, some 7, some "ok".toList⟩] : List ScoreEntry).countP
          (entryInRange [c2itemA, c2itemB]) :=
  claim_C2_thm [c2itemA, c2itemB] [] [⟨some "0".toList, some 7, some "ok".toList⟩]
    [mkScored c2itemA 7 "ok".toList default_category] (by decide)

/-- C3: when the scoring response has no bracket pair, is invalid JSON, or
the merge raises, `_score_news` emits one output per input item, in
order, with score 5 and empty reason (and some category) — nothing is
dropped and the stage returns normally. -/
theorem claim_C3_thm (items : List NewsDict) (categorized : List (Str × List Int))
    (resp : ScoreResp)
    (h : resp = .parseFail ∨ ∃ entries, resp = .parsed entries ∧
        mergeScores items (id_to_category items categorized) entries = none) :
    (score_news items categorized resp).length = items.length ∧
    ∀ (j : Nat) (it : NewsDict), items.get? j = some it →
      ∃ cat : Str, (score_news items categorized resp).get? j
        = some (mkScored it 5 [] cat) := by
  have heq : score_news items categorized resp
      = scoreFallbackGo (id_to_category items categorized) items 0 := by
    rcases h with rfl | ⟨entries, rfl, hmerge⟩
    · exact score_news_parseFail items categorized
    · exact score_news_merge_none items categorized entries hmerge
  rw [heq]
  refine ⟨scoreFallbackGo_length _ items 0, ?_⟩
  intro j it hget
  refine ⟨(dictLookup (id_to_category items categorized) ((j : Int))).getD default_category, ?_⟩
  have := scoreFallbackGo_get (id_to_category items categorized) items 0 j it hget
  rwa [Int.zero_add] at this

/-- Witness instantiating `claim_C3_thm`: an unparseable scoring response
over a one-item batch still yields one output. -/
theorem claim_C3_witness :
    (score_news [c3item] [] .parseFail).length = 1 :=
  (claim_C3_thm [c3item] [] .parseFail (Or.inl rfl)).1

lemma english_le_total (pyIsAlpha : Char → Bool) (text : Str) :
    english_chars pyIsAlpha text ≤ total_alpha pyIsAlpha text := by
  rw [english_chars, total_alpha]
  induction text with
  | nil => simp
  | cons c rest ih =>
    simp only [List.filter_cons]
    cases h1 : (decide (c.toNat < 128) && pyIsAlpha c) with
    | true =>
      have h2 : pyIsAlpha c = true := (Bool.and_eq_true_iff.mp h1).2
      simp only [h2, eq_self_iff_true, if_true, List.length_cons]
      omega
    | false =>
      simp only [Bool.false_eq_true, if_false]
      cases h2 : pyIsAlpha c with
      | true =>
        simp only [eq_self_iff_true, if_true, List.length_cons]
        omega
      | false =>
        simp only [Bool.false_eq_true, if_false]
        omega

lemma needs_translation_int (pyIsAlpha : Char → Bool) (text : Str) :
    needs_translation pyIsAlpha text
      = decide (2 * english_chars pyIsAlpha text > total_alpha pyIsAlpha text) := by
  rw [needs_translation]
  by_cases hempty : text = []
  · rw [if_pos hempty]
    subst hempty
    rfl
  · rw [if_neg hempty]
    by_cases ht : 0 < total_alpha pyIsAlpha text
    · have hiff : ((english_chars pyIsAlpha text : ℚ) / (total_alpha pyIsAlpha text : ℚ) > 1 / 2)
          ↔ 2 * english_chars pyIsAlpha text > total_alpha pyIsAlpha text := by
        rw [gt_iff_lt, div_lt_div_iff (by norm_num) (by exact_mod_cast ht)]
        constructor
        · intro h
          have : (total_alpha pyIsAlpha text : ℚ) < 2 * english_chars pyIsAlpha text := by
            push_cast at h ⊢
            linarith
          exact_mod_cast this
        · intro h
          have : (total_alpha pyIsAlpha text : ℚ) < 2 * english_chars pyIsAlpha text := by
            exact_mod_cast h
          push_cast at this ⊢
          linarith
      rw [decide_eq_true ht, Bool.true_and]
      cases hd : decide ((english_chars pyIsAlpha text : ℚ)
          / (total_alpha pyIsAlpha text : ℚ) > 1 / 2) with
      | true =>
        have := of_decide_eq_true hd
        exact (decide_eq_true (hiff.mp this)).symm
      | false =>
        have := of_decide_eq_false hd
        exact (decide_eq_false (fun hc => this (hiff.mpr hc))).symm
    · have ht0 : total_alpha pyIsAlpha text = 0 := by omega
      have he0 : english_chars pyIsAlpha text = 0 := by
        have := english_le_total pyIsAlpha text
        omega
      rw [ht0, he0]
      simp

/-- C7 (amended): the gating predicate marks a text iff the fraction of
its alphabetic characters that are ASCII strictly exceeds 1/2 (so a text
exactly at the threshold is not marked, one just above it is); but a
below-threshold field is *not* copied verbatim into the translated-field
slot — the slot is set only from a returned translation and otherwise
stays absent (see the counterexample). -/
theorem claim_C7_thm :
    (∀ (pyIsAlpha : Char → Bool) (text : Str),
        needs_translation pyIsAlpha text = true
          ↔ (english_chars pyIsAlpha text : ℚ) / (total_alpha pyIsAlpha text : ℚ) > 1 / 2)
    ∧ needs_translation (fun c => c.isAlpha
        || decide (0x4E00 ≤ c.toNat ∧ c.toNat ≤ 0x9FFF)) "ab汉汉".toList = false
    ∧ needs_translation (fun c => c.isAlpha
        || decide (0x4E00 ≤ c.toNat ∧ c.toNat ≤ 0x9FFF)) "abc汉汉".toList = true := by
  refine ⟨?_, ?_, ?_⟩
  · intro pyIsAlpha text
    rw [needs_translation_int, decide_eq_true_eq]
    constructor
    · intro h
      have ht : 0 < total_alpha pyIsAlpha text := by
        have := english_le_total pyIsAlpha text
        omega
      rw [gt_iff_lt, div_lt_div_iff (by norm_num) (by exact_mod_cast ht)]
      have : (total_alpha pyIsAlpha text : ℚ) < 2 * english_chars pyIsAlpha text := by
        exact_mod_cast h
      push_cast at this ⊢
      linarith
    · intro h
      by_cases ht : 0 < total_alpha pyIsAlpha text
      · rw [gt_iff_lt, div_lt_div_iff (by norm_num) (by exact_mod_cast ht)] at h
        have : (total_alpha pyIsAlpha text : ℚ) < 2 * (english_chars pyIsAlpha text : ℚ) := by
          push_cast at h ⊢
          linarith
        exact_mod_cast this
      · exfalso
        have ht0 : total_alpha pyIsAlpha text = 0 := by omega
        rw [ht0, Nat.cast_zero, div_zero] at h
        norm_num at h
  · rw [needs_translation_int]; decide
  · rw [needs_translation_int]; decide

/-- Counterexample to C7 as stated: `c7item.title` is non-empty and below
the threshold, and after the enhancement stage (whose batch call failed)
its translated-field slot is *absent* — not a verbatim copy of the
original field. -/
theorem claim_C7_counterexample :
    needs_translation (fun c => c.isAlpha
        || decide (0x4E00 ≤ c.toNat ∧ c.toNat ≤ 0x9FFF)) c7item.title = false ∧
    c7item.title ≠ [] ∧
    enhance_and_translate [c7item] [] = [c7item] ∧
    c7item.title_zh = none := by
  refine ⟨by rw [needs_translation_int]; decide, by decide, by decide, by decide⟩

lemma mem_insDesc (key : NewsDict → Int) (x a : NewsDict) :
    ∀ l : List NewsDict, a ∈ insDesc key x l ↔ a = x ∨ a ∈ l := by
  intro l
  induction l with
  | nil => simp [insDesc]
  | cons y ys ih =>
    simp only [insDesc]
    by_cases h : key x ≤ key y
    · simp only [h, if_true, List.mem_cons, ih]
      try tauto
    · simp only [h, if_false, List.mem_cons]
      try tauto

lemma insDesc_sorted (key : NewsDict → Int) (x : NewsDict) :
    ∀ l : List NewsDict, l.Sorted (fun a b => key b ≤ key a) →
      (insDesc key x l).Sorted (fun a b => key b ≤ key a) := by
  intro l
  induction l with
  | nil => intro _; simp [insDesc]
  | cons y ys ih =>
    intro hs
    rw [List.sorted_cons] at hs
    simp only [insDesc]
    by_cases h : key x ≤ key y
    · rw [if_pos h, List.sorted_cons]
      refine ⟨?_, ih hs.2⟩
      intro b hb
      rcases (mem_insDesc key x b ys).mp hb with rfl | hbys
      · exact h
      · exact hs.1 b hbys
    · rw [if_neg h, List.sorted_cons]
      refine ⟨?_, ?_⟩
      · intro b hb
        rcases List.mem_cons.mp hb with rfl | hbys
        · omega
        · have := hs.1 b hbys
          omega
      · rw [List.sorted_cons]
        exact hs

lemma filter_insDesc (key : NewsDict → Int) (x : NewsDict) (k : Int) :
    ∀ l : List NewsDict, l.Sorted (fun a b => key b ≤ key a) →
      (insDesc key x l).filter (fun a => decide (key a = k))
        = l.filter (fun a => decide (key a = k))
          ++ (if key x = k then [x] else []) := by
  intro l
  induction l with
  | nil => intro _; simp [insDesc, List.filter_cons]
  | cons y ys ih =>
    intro hs
    rw [List.sorted_cons] at hs
    simp only [insDesc]
    by_cases h : key x ≤ key y
    · rw [if_pos h]
      simp only [List.filter_cons]
      rw [ih hs.2]
      by_cases hy : key y = k
      · simp [hy]
      · simp [hy]
    · rw [if_neg h]
      by_cases hx : key x = k
      · have hempty : (y :: ys).filter (fun a => decide (key a = k)) = [] := by
          apply List.filter_eq_nil_iff.mpr
          intro a ha
          rcases List.mem_cons.mp ha with rfl | hays
          · simp only [decide_eq_true_eq]
            omega
          · have := hs.1 a hays
            simp only [decide_eq_true_eq]
            omega
        rw [List.filter_cons]
        simp only [hx, decide_eq_true_eq, eq_self_iff_true, if_true]
        rw [hempty]
        simp [hx]
      · simp only [List.filter_cons, hx, decide_eq_true_eq, if_false]
        simp [hx]

lemma foldl_insDesc_sorted (key : NewsDict → Int) :
    ∀ (l acc : List NewsDict), acc.Sorted (fun a b => key b ≤ key a) →
      (l.foldl (fun acc x => insDesc key x acc) acc).Sorted (fun a b => key b ≤ key a) := by
  intro l
  induction l with
  | nil => intro acc h; simpa using h
  | cons x xs ih => intro acc h; exact ih _ (insDesc_sorted key x acc h)

lemma foldl_insDesc_filter (key : NewsDict → Int) (k : Int) :
    ∀ (l acc : List NewsDict), acc.Sorted (fun a b => key b ≤ key a) →
      (l.foldl (fun acc x => insDesc key x acc) acc).filter (fun a => decide (key a = k))
        = acc.filter (fun a => decide (key a = k))
          ++ l.filter (fun a => decide (key a = k)) := by
  intro l
  induction l with
  | nil => intro acc _; simp
  | cons x xs ih =>
    intro acc h
    simp only [List.foldl_cons]
    rw [ih _ (insDesc_sorted key x acc h), filter_insDesc key x k acc h, List.filter_cons]
    by_cases hx : key x = k
    · simp [hx]
    · simp [hx]

lemma pySortDesc_sorted (key : NewsDict → Int) (l : List NewsDict) :
    (pySortDesc key l).Sorted (fun a b => key b ≤ key a) :=
  foldl_insDesc_sorted key l [] (by simp)

lemma pySortDesc_stable (key : NewsDict → Int) (l : List NewsDict) (k : Int) :
    (pySortDesc key l).filter (fun a => decide (key a = k))
      = l.filter (fun a => decide (key a = k)) := by
  rw [pySortDesc, foldl_insDesc_filter key k l [] (by simp)]
  simp

/-- C8: both ranking call sites sort by score descending with a stable
tie-break on the order of the scored list: the result is
pairwise-descending in the key, and for every key value the items
carrying it appear in their original relative order; on scores
`[7,7,5,9]` in order `[A,B,C,D]` both sites produce `[D,A,B,C]`. -/
theorem claim_C8 :
    (∀ l : List NewsDict,
        (pySortDesc sortKey l).Sorted (fun a b => sortKey b ≤ sortKey a)
        ∧ ∀ k : Int,
            (pySortDesc sortKey l).filter (fun a => decide (sortKey a = k))
              = l.filter (fun a => decide (sortKey a = k)))
    ∧ summarize_top_news [c8A, c8B, c8C, c8D] = [c8D, c8A, c8B, c8C]
    ∧ mailer_sort_category [c8A, c8B, c8C, c8D] = [c8D, c8A, c8B, c8C] := by
  refine ⟨fun l => ⟨pySortDesc_sorted sortKey l, fun k => pySortDesc_stable sortKey l k⟩,
    by decide, by decide⟩

/-- Counterexample to C9 as stated: in the compiled workflow the relevance
filter does *not* run before the classification node — `categorize`
(which performs the batched classification call) is the entry point and
precedes `filter`. -/
theorem claim_C9_counterexample :
    ¬ (stage_sequence.indexOf "filter".toList
        < stage_sequence.indexOf "categorize".toList) := by
  decide

/-- C9 (amended): the workflow runs the batched classification
(`categorize`) strictly *before* the relevance filter, which runs before
scoring; the full stage order is categorize → filter → score →
enhance_translate → label_and_oneliner → find_trends → cluster_news →
analyze_papers → summarize → spotlight → action_items → commentary. -/
theorem claim_C9_thm :
    stage_sequence
      = ["categorize".toList, "filter".toList, "score".toList,
         "enhance_translate".toList, "label_and_oneliner".toList,
         "find_trends".toList, "cluster_news".toList, "analyze_papers".toList,
         "summarize".toList, "spotlight".toList, "action_items".toList,
         "commentary".toList, "END".toList]
    ∧ stage_sequence.indexOf "categorize".toList < stage_sequence.indexOf "filter".toList
    ∧ stage_sequence.indexOf "filter".toList < stage_sequence.indexOf "score".toList := by
  refine ⟨by decide, by decide, by decide⟩

end WhatsNew
